import Mathlib

/-!
Shallow embedding of the cold-control laboratory-automation scripts.

Each Lean definition below is translated from one Python function of the
repository:

* `src/classes/oscilloscope_manager_big_scope.py` — the `OscilloscopeManager`
  class: construction, the configuration guard on the slow acquisition
  functions, and the two polling loops `arm_scope` and `wait_for_acquisition`.
* `src/calibrations/calibration_scripts/calibrate_flip_arm.py` —
  `measure_loop` (voltage sweep recorded to CSV) and `fit_and_interpolate`
  (linear least-squares calibration fit).
* `src/waveforms/stirap_rabi_generator.py` — `export_to_csv` (single-line CSV
  export of a waveform array) and `generate_rabi` (pulse sampling,
  per-envelope normalization, file export).

Machine reals are idealized as exact rationals `ℚ` (the square root appearing
in the `rmse` fit statistic is taken in `ℝ`).  Hardware interaction is made
explicit: instrument responses become function arguments (oracles), writes and
queries to the instrument are collected into a trace of SCPI command strings,
and a Python exception becomes the `Except.error` branch carrying the
exception's message.
-/

namespace ColdControl

/-! ## Oscilloscope manager (`oscilloscope_manager_big_scope.py`) -/

/-- The only piece of `OscilloscopeManager` state the embedded operations
consult: `self.read_speed`, which is `None` until `configure_scope` runs
(`none` here), and afterwards holds the `high_speed` boolean. -/
structure OscState where
  read_speed : Option Bool
deriving DecidableEq

/-- `OscilloscopeManager.__init__`.  The `try` block opens the VISA resource
and queries `*IDN?`; each step is passed in as an `Except` oracle (`.error e`
models a raised `visa.Error` with message `e`).  The result pairs the list of
printed diagnostic lines with either the constructed manager state
(`read_speed = None`) or the re-raised exception: the `except visa.Error`
branch prints `"Error al conectar con el osciloscopio: {e}"` and re-raises
the same exception via a bare `raise`. -/
def osc_init (openRes : Except String Unit) (idnRes : Except String String) :
    List String × Except String OscState :=
  match openRes with
  | .error e => (["Error al conectar con el osciloscopio: " ++ e], .error e)
  | .ok _ =>
    match idnRes with
    | .error e => (["Error al conectar con el osciloscopio: " ++ e], .error e)
    | .ok idn => (["Conectado al osciloscopio: " ++ idn], .ok ⟨none⟩)

/-- The effect of `OscilloscopeManager.configure_scope` on the embedded state:
it stores the `high_speed` argument into `self.read_speed`. -/
def configure_scope (_st : OscState) (high_speed : Bool) : OscState :=
  ⟨some high_speed⟩

/-- Responses of the instrument consulted by the slow-acquisition functions,
one field per distinct SCPI query of the Python source.  `data ch` is the
unsigned-word waveform block returned by `WAVEFORM:DATA?` on channel `ch`. -/
structure ScopeResponses where
  opc : String
  yIncr : ℚ
  yOrig : ℚ
  xIncr : ℚ
  xOrig : ℚ
  numPoints : ℕ
  data : ℕ → List ℚ

/-- The `collected_data` DataFrame built by the acquisition loops: the
`Time (s)` column followed by one `Channel {ch} Voltage (V)` column per
channel, in the order the channels were processed. -/
structure Frame where
  time : List ℚ
  channels : List (ℕ × List ℚ)
deriving DecidableEq

/-- `np.linspace(x_orig, x_orig + x_incr * (num_points - 1), num_points)` as
used for the time axis: point `i` is `x_orig + x_incr * i`. -/
def time_axis (r : ScopeResponses) : List ℚ :=
  (List.range r.numPoints).map (fun i => r.xOrig + r.xIncr * (i : ℚ))

/-- One iteration of the channel loop of `read_slow_return_data`: the SCPI
commands issued for the channel, paired with the scaled voltage column or the
first raised exception (`*OPC?` not returning `'1'` raises `RuntimeError`;
an empty data block raises `ValueError`). -/
def rsrd_channel (r : ScopeResponses) (ch : ℕ) :
    List String × Except String (List ℚ) :=
  let c0 := ["WAVEFORM:SOURCE CHANNEL" ++ toString ch, "SYSTem:ERRor?", "*OPC?"]
  if r.opc ≠ "1" then
    (c0, .error ("Operation did not complete successfully. OPC returned: " ++ r.opc))
  else
    let c1 := c0 ++ ["WAVeform:YINCrement?", "WAVeform:YORigin?",
                     ":WAVeform:STReaming OFF", "WAVeform:DATA?"]
    let y := (r.data ch).map (fun v => v * r.yIncr + r.yOrig)
    if y.isEmpty then
      (c1, .error ("No data collected from channel " ++ toString ch ++ "."))
    else (c1, .ok y)

/-- The channel loop of `read_slow_return_data`.  `first` records whether
`collected_data` is still `None`, in which case the time axis is queried and
the `Time (s)` column created before the channel's voltage column is added. -/
def rsrd_loop (r : ScopeResponses) :
    List ℕ → Bool → Frame → List String × Except String Frame
  | [], _, acc => ([], .ok acc)
  | ch :: rest, first, acc =>
    match rsrd_channel r ch with
    | (cs, .error e) => (cs, .error e)
    | (cs, .ok y) =>
      let (cs2, acc') :=
        if first then
          (["WAVeform:XINCrement?", "WAVeform:XORigin?", "WAVeform:POINts?"],
           Frame.mk (time_axis r) [])
        else ([], acc)
      let acc2 : Frame := ⟨acc'.time, acc'.channels ++ [(ch, y)]⟩
      match rsrd_loop r rest false acc2 with
      | (csr, resr) => (cs ++ cs2 ++ csr, resr)

/-- `OscilloscopeManager.read_slow_return_data`.  Its first statement raises
`ValueError("Scope read speed not set. Please configure the scope first.")`
when `self.read_speed is None`; only afterwards is the byte-order command
written and the channel loop entered.  The result pairs the SCPI commands
actually issued with the returned DataFrame or the raised exception. -/
def read_slow_return_data (st : OscState) (r : ScopeResponses) (channels : List ℕ) :
    List String × Except String Frame :=
  match st.read_speed with
  | none => ([], .error "Scope read speed not set. Please configure the scope first.")
  | some _ =>
    match rsrd_loop r channels true ⟨[], []⟩ with
    | (cs, res) => ("WAVEFORM:BYTEORDER LSBFIRST" :: cs, res)

/-- One iteration of the channel loop of `acquire_slow_save_data` (this loop
re-writes the byte order each pass and has no `*OPC?` check). -/
def assd_channel (r : ScopeResponses) (ch : ℕ) :
    List String × Except String (List ℚ) :=
  let c0 := ["WAVEFORM:BYTEORDER LSBFIRST", "WAVEFORM:SOURCE CHANNEL" ++ toString ch,
             "WAVEFORM:YINCREMENT?", "WAVEFORM:YORIGIN?", "WAVEFORM:DATA?"]
  let y := (r.data ch).map (fun v => v * r.yIncr + r.yOrig)
  if y.isEmpty then
    (c0, .error ("No data collected from channel " ++ toString ch ++ "."))
  else (c0, .ok y)

/-- The channel loop of `acquire_slow_save_data`. -/
def assd_loop (r : ScopeResponses) :
    List ℕ → Bool → Frame → List String × Except String Frame
  | [], _, acc => ([], .ok acc)
  | ch :: rest, first, acc =>
    match assd_channel r ch with
    | (cs, .error e) => (cs, .error e)
    | (cs, .ok y) =>
      let (cs2, acc') :=
        if first then
          (["WAVEFORM:XINCREMENT?", "WAVEFORM:XORIGIN?", "WAVEFORM:POINTS?"],
           Frame.mk (time_axis r) [])
        else ([], acc)
      let acc2 : Frame := ⟨acc'.time, acc'.channels ++ [(ch, y)]⟩
      match assd_loop r rest false acc2 with
      | (csr, resr) => (cs ++ cs2 ++ csr, resr)

/-- `OscilloscopeManager.acquire_slow_save_data`: identical guard to
`read_slow_return_data` (raise `ValueError` when `read_speed is None` before
any instrument command), then the channel loop; the final `save_data` call
writes the frame to disk, so the embedded result carries the frame saved. -/
def acquire_slow_save_data (st : OscState) (r : ScopeResponses) (channels : List ℕ) :
    List String × Except String Frame :=
  match st.read_speed with
  | none => ([], .error "Scope read speed not set. Please configure the scope first.")
  | some _ => assd_loop r channels true ⟨[], []⟩

/-- `OscilloscopeManager.arm_scope`.  Each list element is one poll of the
`:AER?` register inside the bounded `while time.perf_counter() < end` loop:
`some v` is a successfully parsed integer reply, `none` a poll whose query or
`int` conversion raised (the `except` clause breaks out of the loop).  The
list length is the number of polls the timeout budget allows; exhausting it
without seeing `1`, or breaking on an exception, falls through to
`raise RuntimeError("Oscilloscope failed to arm within timeout")`. -/
def arm_scope : List (Option ℤ) → Except String Bool
  | [] => .error "Oscilloscope failed to arm within timeout"
  | r :: rs =>
    match r with
    | none => .error "Oscilloscope failed to arm within timeout"
    | some v => if v = 1 then .ok true else arm_scope rs

/-- One poll of `wait_for_acquisition`: the stripped replies to `:TER?`,
`:OPER?`, `:RSTATE?` and `:PDER?`.  The numeric fields are `none` when the
later `int(...)` conversion of that reply would raise `ValueError`. -/
structure Poll where
  ter : Option ℤ
  oper : Option ℤ
  rstate : String
  pder : Option ℤ
deriving DecidableEq

/-- `str.upper()` on one ASCII character, as applied by `rstate.upper()`. -/
def up_char (c : Char) : Char :=
  if 'a' ≤ c ∧ c ≤ 'z' then Char.ofNat (c.toNat - 32) else c

/-- Python's `str.upper()` (ASCII range, which covers the `:RSTATE?` replies). -/
def py_upper (s : String) : String := ⟨s.data.map up_char⟩

/-- The second condition tested each iteration of `wait_for_acquisition`,
`rstate.upper() == 'STOP' and int(oper) == 2 and int(pder) == 1`, with
Python's short-circuit evaluation: a failing `int` conversion (a `none`
field) only raises when it is actually reached. -/
def stop_cond (p : Poll) : Option Bool :=
  if py_upper p.rstate = "STOP" then
    match p.oper with
    | none => none
    | some o =>
      if o = 2 then
        match p.pder with
        | none => none
        | some d => some (d == 1)
      else some false
  else some false

/-- One iteration of the polling loop of `wait_for_acquisition`: update the
persistent `ready` pair, or `none` when an `int` conversion raised (the
`except` clause breaks out of the loop). -/
def wait_iter (ready : Bool × Bool) (p : Poll) : Option (Bool × Bool) :=
  match p.ter with
  | none => none
  | some t =>
    let r0 := ready.1 || (t != 0)
    match stop_cond p with
    | none => none
    | some c => some (r0, ready.2 || c)

/-- `OscilloscopeManager.wait_for_acquisition`.  Each list element is one
iteration of the bounded polling loop; the list length is the number of polls
the timeout budget allows.  Both the timeout path (list exhausted) and the
exception path (`wait_iter` returns `none`, modelling the `except: break`)
fall through to `return False`; only observing both ready conditions returns
`True`.  The function never raises, hence the result is always `.ok`. -/
def wait_for_acquisition : List Poll → (Bool × Bool) → Except String Bool
  | [], _ => .ok false
  | p :: ps, ready =>
    match wait_iter ready p with
    | none => .ok false
    | some r => if r.1 && r.2 then .ok true else wait_for_acquisition ps r

/-- A poll whose `int` conversions all succeed: its iteration completes
without hitting the `except: break`.  The polls the loop actually processes
to completion are the longest `poll_parses` prefix of the trace. -/
def poll_parses (p : Poll) : Bool := p.ter.isSome && (stop_cond p).isSome

/-- The first ready condition of one poll: `int(ter) != 0` (a trigger
event). -/
def trigger_seen (p : Poll) : Bool :=
  match p.ter with
  | some t => t != 0
  | none => false

/-- The second ready condition of one poll:
`rstate.upper() == 'STOP' and int(oper) == 2 and int(pder) == 1`. -/
def stop_seen (p : Poll) : Bool := stop_cond p == some true

/-! ## Decimal cells and CSV lines

`measure_loop` saves its DataFrame with `df.to_csv(output_csv, index=False)`
and `fit_and_interpolate` reads it back with `pd.read_csv`.  Pandas prints
each float as its shortest round-tripping decimal string; a written float is
therefore idealized here as a decimal number `m / 10 ^ e` (`Dec`), the exact
value the cell denotes.  A CSV file is modelled as its list of lines, each
line a list of characters; cells within a line are joined with `','`. -/

/-- A decimal number `m / 10 ^ e`: the idealization of a float as printed by
pandas `to_csv` (every printed float is such a decimal, and parsing the cell
recovers exactly this value). -/
structure Dec where
  m : ℤ
  e : ℕ
deriving DecidableEq

/-- The rational value a `Dec` cell denotes. -/
def Dec.val (d : Dec) : ℚ := (d.m : ℚ) / 10 ^ d.e

/-- Base-10 digits of `n`, least significant first, zero-padded to at least
`minLen` digits. -/
def pad_digits (n minLen : ℕ) : List ℕ :=
  Nat.digits 10 n ++ List.replicate (minLen - (Nat.digits 10 n).length) 0

/-- Decimal rendering of the non-negative number `n / 10 ^ e`: the digits of
`n` (at least `e + 1` of them, zero-padded) with a decimal point before the
last `e` digits; for `e = 0` no decimal point is printed. -/
def print_nat_dec (n e : ℕ) : List Char :=
  let ls := pad_digits n (e + 1)
  let intPart := (ls.drop e).reverse.map Nat.digitChar
  let fracPart := (ls.take e).reverse.map Nat.digitChar
  if e = 0 then intPart else intPart ++ '.' :: fracPart

/-- Decimal rendering of a `Dec` cell, with a leading minus sign for negative
mantissas. -/
def Dec.print (d : Dec) : List Char :=
  (if d.m < 0 then ['-'] else []) ++ print_nat_dec d.m.natAbs d.e

/-- The numeric value of one decimal digit character. -/
def char_digit (c : Char) : ℕ := c.toNat - 48

/-- Value of a most-significant-first list of digit characters. -/
def digits_val (cs : List Char) : ℕ :=
  cs.foldl (fun acc c => 10 * acc + char_digit c) 0

/-- Parse an unsigned decimal cell (`"12"`, `"3.25"`, `"0.0001"`), as the
float parser of `pd.read_csv` does for such cells. -/
def parse_unsigned (cs : List Char) : Option ℚ :=
  let intPart := cs.takeWhile (fun c => c ≠ '.')
  let rest := cs.dropWhile (fun c => c ≠ '.')
  let fracPart := rest.drop 1
  if intPart.all Char.isDigit ∧ fracPart.all Char.isDigit ∧
      ¬(intPart.isEmpty ∧ fracPart.isEmpty) then
    some ((digits_val intPart : ℚ) + (digits_val fracPart : ℚ) / 10 ^ fracPart.length)
  else none

/-- Parse a decimal cell with an optional leading minus sign. -/
def parse_cell (cs : List Char) : Option ℚ :=
  match cs with
  | [] => none
  | c :: rest =>
    if c = '-' then (parse_unsigned rest).map (fun q => -q)
    else parse_unsigned (c :: rest)

/-- Join cells with a separator character (how `to_csv` lays out one line). -/
def join_cells (sep : Char) : List (List Char) → List Char
  | [] => []
  | [c] => c
  | c :: cs => c ++ sep :: join_cells sep cs

/-- Split a character list at a separator: the first cell and the remaining
cells (how `read_csv` tokenizes one line). -/
def split_cells (sep : Char) : List Char → List Char × List (List Char)
  | [] => ([], [])
  | c :: cs =>
    let r := split_cells sep cs
    if c = sep then ([], r.1 :: r.2) else (c :: r.1, r.2)

/-- All cells of a line (always at least one, possibly empty). -/
def split_on (sep : Char) (l : List Char) : List (List Char) :=
  (split_cells sep l).1 :: (split_cells sep l).2

/-! ## Calibration sweep (`calibrate_flip_arm.py`, `measure_loop`) -/

/-- The `header` list of `measure_loop`, i.e. the CSV column names. -/
def measure_header : List String := ["voltage", "power_flip", "power_target", "timestamp"]

/-- The sequence of voltages visited by
`for _ in range(repeats): for v in voltages:` — the whole sweep repeated
`repeats` times, in order. -/
def sweep_list (voltages : List ℚ) : ℕ → List ℚ
  | 0 => []
  | n + 1 => voltages ++ sweep_list voltages n

/-- The `data` rows accumulated by `measure_loop`: for the `k`-th measurement
of the sweep (`k` counts `(repeat, voltage)` pairs in order) the row
`[v, p1, p2, ts]`, where `p1`/`p2` are the `k`-th readings of the flip and
target power meters and `ts` the `k`-th `time.time()` stamp; the meter and
clock readings are oracles indexed by the measurement counter. -/
def measure_rows (voltages : List ℚ) (repeats : ℕ) (pFlip pTarget ts : ℕ → ℚ) :
    List (ℚ × ℚ × ℚ × ℚ) :=
  (sweep_list voltages repeats).enum.map (fun iv => (iv.2, pFlip iv.1, pTarget iv.1, ts iv.1))

/-- `measure_loop`: the DataFrame it saves, as the pair (column names, data
rows).  `pd.DataFrame(data, columns=header)` followed by
`df.to_csv(output_csv, index=False)` writes exactly these columns and rows. -/
def measure_loop (voltages : List ℚ) (repeats : ℕ) (pFlip pTarget ts : ℕ → ℚ) :
    List String × List (ℚ × ℚ × ℚ × ℚ) :=
  (measure_header, measure_rows voltages repeats pFlip pTarget ts)

/-- The header line `"voltage,power_flip,power_target,timestamp"` written by
`df.to_csv(..., index=False)`. -/
def header_line : List Char := join_cells ',' (measure_header.map String.toList)

/-- One data line written by `to_csv`: the four cells joined with commas. -/
def write_row (row : Dec × Dec × Dec × Dec) : List Char :=
  join_cells ',' [row.1.print, row.2.1.print, row.2.2.1.print, row.2.2.2.print]

/-- `df.to_csv(output_csv, index=False)` for `measure_loop`'s DataFrame whose
cell values are the decimals `rows`: the header line then one line per row. -/
def to_csv (rows : List (Dec × Dec × Dec × Dec)) : List (List Char) :=
  header_line :: rows.map write_row

/-- Parse one data line back into its four numeric cell values. -/
def parse_row (line : List Char) : Option (ℚ × ℚ × ℚ × ℚ) :=
  match split_on ',' line with
  | [a, b, c, d] => do
    let qa ← parse_cell a
    let qb ← parse_cell b
    let qc ← parse_cell c
    let qd ← parse_cell d
    pure (qa, qb, qc, qd)
  | _ => none

/-- Parse every data line of the file, in order (`none` as soon as one line
fails to parse). -/
def parse_rows : List (List Char) → Option (List (ℚ × ℚ × ℚ × ℚ))
  | [] => some []
  | l :: ls => do
    let r ← parse_row l
    let rs ← parse_rows ls
    pure (r :: rs)

/-- `pd.read_csv` on such a file: skip the header line and parse every data
line into its numeric values (`none` models a parse failure). -/
def read_csv (lines : List (List Char)) : Option (List (ℚ × ℚ × ℚ × ℚ)) :=
  match lines with
  | [] => none
  | _hdr :: rest => parse_rows rest

/-! ## Calibration fit (`calibrate_flip_arm.py`, `fit_and_interpolate`)

`fit_and_interpolate` reads the calibration CSV, selects the `power1` and
`power2` columns (for `measure_loop`'s file, which lacks those names, the
first three columns are renamed `voltage, power1, power2`, so `power1` is the
`power_flip` column and `power2` the `power_target` column) and fits
`power2 = a * power1 + b`.  `rows` below is the resulting list of
`(power1, power2)` pairs. -/

/-- `np.sum(x)` over the `power1` column. -/
def sum_x (rows : List (ℚ × ℚ)) : ℚ := (rows.map (fun p => p.1)).sum

/-- Sum over the `power2` column. -/
def sum_y (rows : List (ℚ × ℚ)) : ℚ := (rows.map (fun p => p.2)).sum

/-- Sum of squares of the `power1` column. -/
def sum_xx (rows : List (ℚ × ℚ)) : ℚ := (rows.map (fun p => p.1 ^ 2)).sum

/-- Sum of products of the two columns. -/
def sum_xy (rows : List (ℚ × ℚ)) : ℚ := (rows.map (fun p => p.1 * p.2)).sum

/-- Determinant of the degree-1 normal equations, `n·Σx² − (Σx)²`. -/
def fit_denom (rows : List (ℚ × ℚ)) : ℚ :=
  (rows.length : ℚ) * sum_xx rows - sum_x rows ^ 2

/-- The slope returned by `np.polyfit(x, y, 1)`: the least-squares solution
of the normal equations (unique, and equal to this closed form, whenever
`fit_denom rows ≠ 0`; the degenerate rank-deficient case is not exercised by
any claim). -/
def fit_a (rows : List (ℚ × ℚ)) : ℚ :=
  ((rows.length : ℚ) * sum_xy rows - sum_x rows * sum_y rows) / fit_denom rows

/-- The intercept returned by `np.polyfit(x, y, 1)` (see `fit_a`). -/
def fit_b (rows : List (ℚ × ℚ)) : ℚ :=
  (sum_y rows - fit_a rows * sum_x rows) / (rows.length : ℚ)

/-- `residuals = y - y_pred` with `y_pred = a * x + b`. -/
def fit_residuals (rows : List (ℚ × ℚ)) : List ℚ :=
  rows.map (fun p => p.2 - (fit_a rows * p.1 + fit_b rows))

/-- `ss_res = np.sum(residuals ** 2)`. -/
def ss_res (rows : List (ℚ × ℚ)) : ℚ :=
  ((fit_residuals rows).map (fun r => r ^ 2)).sum

/-- `ss_tot = np.sum((y - np.mean(y)) ** 2)`. -/
def ss_tot (rows : List (ℚ × ℚ)) : ℚ :=
  (rows.map (fun p => (p.2 - sum_y rows / (rows.length : ℚ)) ^ 2)).sum

/-- `r2 = 1.0 - ss_res / ss_tot if ss_tot != 0 else float("nan")`; the `nan`
branch is modelled as `none`. -/
def fit_r2 (rows : List (ℚ × ℚ)) : Option ℚ :=
  if ss_tot rows ≠ 0 then some (1 - ss_res rows / ss_tot rows) else none

/-- `rmse = np.sqrt(np.mean(residuals ** 2))` (the one genuinely real-valued
fit statistic). -/
noncomputable def fit_rmse (rows : List (ℚ × ℚ)) : ℝ :=
  Real.sqrt ((ss_res rows / (rows.length : ℚ) : ℚ) : ℝ)

/-- The `fit_info` dict literal of `fit_and_interpolate`: exactly the keys
`"a"`, `"b"`, `"r2"`, `"rmse"`, `"n"`, one field per key, in the order they
are written. -/
structure FitInfo where
  a : ℚ
  b : ℚ
  r2 : Option ℚ
  rmse : ℝ
  n : ℕ

/-- `fit_and_interpolate` (plotting side effects omitted).  When the CSV has
no data rows (a readable header-only file), `np.polyfit` raises
`TypeError("expected non-empty vector for x")` before anything is built —
the `.error` branch.  Otherwise it returns the pair `(predict, fit_info)`
where `predict(p1) = a * p1 + b` closes over the fitted coefficients and
`fit_info` is the dict of fit parameters with `n = len(x)`, the number of
data rows. -/
noncomputable def fit_and_interpolate (rows : List (ℚ × ℚ)) :
    Except String ((ℚ → ℚ) × FitInfo) :=
  if rows.length = 0 then .error "expected non-empty vector for x"
  else
    .ok (fun p => fit_a rows * p + fit_b rows,
         ⟨fit_a rows, fit_b rows, fit_r2 rows, fit_rmse rows, rows.length⟩)

/-! ## STIRAP waveform generator (`stirap_rabi_generator.py`) -/

/-- The zeroing pass of `export_to_csv`: every element with
`abs(el) < 10**(-9)` is replaced by `0`, every other element is copied into
`rescaled_arr` unchanged. -/
def rescale_small (arr : List ℚ) : List ℚ :=
  arr.map (fun el => if |el| < 1 / 10 ^ 9 then 0 else el)

/-- The `'%.10f'` format of `np.savetxt`: the value rounded to 10 decimal
places and printed with exactly 10 fractional digits (the binary-float
tie-breaking of the C format is idealized as rounding to the nearest
decimal). -/
def format10 (q : ℚ) : List Char := Dec.print ⟨round (q * 10 ^ 10), 10⟩

/-- `export_to_csv`: the resulting file contents as a character list.
`np.savetxt(..., delimiter=',', newline=',', fmt='%.10f')` writes every
(zeroed-and-formatted) element followed by a comma; the function then seeks
one character back from the end and truncates a trailing comma, and finally
appends a newline.  For an empty array the file is empty and the backwards
seek raises `ValueError`, which the surrounding `except` swallows — the file
is then left empty, with no newline appended. -/
def export_to_csv (arr : List ℚ) : List Char :=
  let s1 := ((rescale_small arr).map (fun q => format10 q ++ [','])).flatten
  match s1.getLast? with
  | none => []
  | some c => (if c = ',' then s1.dropLast else s1) ++ ['\n']

/-- `np.max(np.abs(xs))`, as `0` for the empty list. -/
def max_abs (xs : List ℚ) : ℚ := (xs.map (fun x => |x|)).foldr max 0

/-- The guarded normalization divisor of `generate_rabi`:
`np.max(np.abs(Omega)) if np.max(np.abs(Omega)) != 0 else 1.0`. -/
def norm_div (xs : List ℚ) : ℚ := if max_abs xs ≠ 0 then max_abs xs else 1

/-- `Omega / max` — one pulse envelope normalized by its guarded maximum. -/
def norm_envelope (xs : List ℚ) : List ℚ := xs.map (fun x => x / norm_div xs)

/-- `filename_prefix = f"{shape}_{T*1000:.0f}ns"` (the `%.0f` rendering of
`T*1000` idealized as rounding to the nearest integer). -/
def filename_stem (shape : String) (T : ℚ) : String :=
  shape ++ "_" ++ toString (round (T * 1000) : ℤ) ++ "ns"

/-- `generate_rabi` with the sampled pulse envelopes passed in as `omegaP`
and `omegaS` (the `"standard"` branch samples the transcendental `pump2` and
`stokes2` curves; those real-valued samples are supplied as arguments here).
Any shape other than `"standard"` hits the `else` branch and raises
`ValueError` before anything is normalized or exported; the `"standard"`
branch normalizes each envelope separately and exports the two arrays, whose
filenames and contents the `.ok` value lists in write order. -/
def generate_rabi (T : ℚ) (shape : String) (omegaP omegaS : List ℚ) :
    Except String (List (String × List ℚ)) :=
  if shape = "standard" then
    .ok [(filename_stem shape T ++ "_pump.csv", norm_envelope omegaP),
         (filename_stem shape T ++ "_stokes.csv", norm_envelope omegaS)]
  else
    .error ("Unsupported shape for STIRAP pulses: " ++ shape)

/-! ## Helper lemmas: polling loops -/

theorem arm_scope_error (rs : List (Option ℤ))
    (h : ∀ v ∈ rs.takeWhile (fun v => v.isSome), v ≠ some 1) :
    arm_scope rs = .error "Oscilloscope failed to arm within timeout" := by
  induction rs with
  | nil => rfl
  | cons r rs ih =>
    cases r with
    | none => rfl
    | some v =>
      have htw : (some v :: rs).takeWhile (fun v => v.isSome) =
          some v :: rs.takeWhile (fun v => v.isSome) := by
        simp [List.takeWhile_cons]
      rw [htw] at h
      have hv : ¬v = 1 := by
        intro hv
        exact h (some v) (List.mem_cons_self _ _) (by rw [hv])
      simp only [arm_scope, hv, if_false]
      exact ih (fun w hw => h w (List.mem_cons_of_mem _ hw))

theorem wait_for_acquisition_timeout (polls : List Poll) (ready : Bool × Bool)
    (h : ¬((ready.1 = true ∨ ∃ p ∈ polls.takeWhile poll_parses, trigger_seen p = true) ∧
           (ready.2 = true ∨ ∃ p ∈ polls.takeWhile poll_parses, stop_seen p = true))) :
    wait_for_acquisition polls ready = .ok false := by
  induction polls generalizing ready with
  | nil => rfl
  | cons p ps ih =>
    cases hter : p.ter with
    | none =>
      have hw : wait_iter ready p = none := by simp [wait_iter, hter]
      simp [wait_for_acquisition, hw]
    | some t =>
      cases hsc : stop_cond p with
      | none =>
        have hw : wait_iter ready p = none := by simp [wait_iter, hter, hsc]
        simp [wait_for_acquisition, hw]
      | some c =>
        have hw : wait_iter ready p = some (ready.1 || (t != 0), ready.2 || c) := by
          simp [wait_iter, hter, hsc]
        have hparse : poll_parses p = true := by simp [poll_parses, hter, hsc]
        have htw : (p :: ps).takeWhile poll_parses = p :: ps.takeWhile poll_parses := by
          simp [List.takeWhile_cons, hparse]
        rw [htw] at h
        have htrig : trigger_seen p = (t != 0) := by simp [trigger_seen, hter]
        have hstopn : stop_seen p = c := by
          simp only [stop_seen, hsc]
          cases c <;> rfl
        have hcheck : ((ready.1 || (t != 0)) && (ready.2 || c)) = false := by
          by_contra hb
          rw [Bool.not_eq_false, Bool.and_eq_true] at hb
          obtain ⟨h1, h2⟩ := hb
          simp only [Bool.or_eq_true] at h1 h2
          apply h
          constructor
          · rcases h1 with hh | hh
            · exact Or.inl hh
            · exact Or.inr ⟨p, List.mem_cons_self _ _, by rw [htrig]; exact hh⟩
          · rcases h2 with hh | hh
            · exact Or.inl hh
            · exact Or.inr ⟨p, List.mem_cons_self _ _, by rw [hstopn]; exact hh⟩
        have hstep : wait_for_acquisition (p :: ps) ready =
            wait_for_acquisition ps (ready.1 || (t != 0), ready.2 || c) := by
          simp [wait_for_acquisition, hw, hcheck]
        rw [hstep]
        apply ih
        rintro ⟨hA, hB⟩
        simp only [Bool.or_eq_true] at hA hB
        apply h
        constructor
        · rcases hA with (hh | hh) | ⟨q, hq, hqt⟩
          · exact Or.inl hh
          · exact Or.inr ⟨p, List.mem_cons_self _ _, by rw [htrig]; exact hh⟩
          · exact Or.inr ⟨q, List.mem_cons_of_mem _ hq, hqt⟩
        · rcases hB with (hh | hh) | ⟨q, hq, hqs⟩
          · exact Or.inl hh
          · exact Or.inr ⟨p, List.mem_cons_self _ _, by rw [hstopn]; exact hh⟩
          · exact Or.inr ⟨q, List.mem_cons_of_mem _ hq, hqs⟩

/-! ## Claim theorems -/

/-- C1 is false as stated for `wait_for_acquisition`: on this call the polled
success condition is never observed (`:TER?` reads `0` and `:RSTATE?` is
`RUN` on the one poll the timeout budget allows), yet the call returns the
value `False` normally instead of raising. -/
theorem claim_C1_counterexample :
    wait_for_acquisition [⟨some 0, some 0, "RUN", some 0⟩] (false, false) =
      .ok false := rfl

/-- C1 (amended): both polling loops have a hard timeout, but only
`arm_scope` raises on expiry: whenever no successful `:AER?` poll reads `1`
before the loop breaks on an exception or the poll budget is exhausted,
`arm_scope` raises `RuntimeError`.  `wait_for_acquisition`, started from its
initial `ready = [False, False]`, returns the value `False` normally — it
never raises — whenever the polled success condition is never observed
within the budget (among the polls processed to completion, no trigger event
and no stop condition are both seen). -/
theorem claim_C1_amended_timeouts :
    (∀ rs : List (Option ℤ), (∀ v ∈ rs.takeWhile (fun v => v.isSome), v ≠ some 1) →
      arm_scope rs = .error "Oscilloscope failed to arm within timeout") ∧
    (∀ polls : List Poll,
      ¬((∃ p ∈ polls.takeWhile poll_parses, trigger_seen p = true) ∧
        (∃ p ∈ polls.takeWhile poll_parses, stop_seen p = true)) →
      wait_for_acquisition polls (false, false) = .ok false) := by
  refine ⟨arm_scope_error, fun polls h =>
    wait_for_acquisition_timeout polls (false, false) ?_⟩
  rintro ⟨hA, hB⟩
  apply h
  constructor
  · rcases hA with hA | hA
    · exact absurd hA (by simp)
    · exact hA
  · rcases hB with hB | hB
    · exact absurd hB (by simp)
    · exact hB

/-- C1 witness: the amended theorem applied to an exception-then-success
trace for `arm_scope` (the break happens before the `1` is ever read) and to
a concrete never-successful poll list for `wait_for_acquisition`. -/
theorem claim_C1_witness :
    arm_scope [none, some 1] = .error "Oscilloscope failed to arm within timeout" ∧
    wait_for_acquisition [⟨some 0, some 2, "Stop", some 1⟩] (false, false) = .ok false :=
  ⟨claim_C1_amended_timeouts.1 [none, some 1] (by decide),
   claim_C1_amended_timeouts.2 [⟨some 0, some 2, "Stop", some 1⟩] (by decide)⟩

/-- C3 is false as stated at a readable header-only calibration CSV (no data
rows — `measure_loop` itself produces one for an empty voltage list):
`np.polyfit` then raises `TypeError("expected non-empty vector for x")`, so
`fit_and_interpolate` raises instead of returning the promised pair. -/
theorem claim_C3_counterexample :
    fit_and_interpolate ([] : List (ℚ × ℚ)) =
      .error "expected non-empty vector for x" := by
  simp [fit_and_interpolate]

/-- C3 (amended): for every readable calibration CSV with at least one data
row, `fit_and_interpolate` returns a pair `(predict, fit_info)` where
`fit_info` is exactly the record of slope `a`, intercept `b`, fit quality
`r2` and `rmse`, and sample count `n` equal to the number of data rows, and
`predict p` equals `a * p + b` for the stored coefficients; on a CSV with no
data rows it raises. -/
theorem claim_C3_fit_info_tuple (rows : List (ℚ × ℚ)) (h : rows ≠ []) :
    fit_and_interpolate rows =
      .ok (fun p => fit_a rows * p + fit_b rows,
           ⟨fit_a rows, fit_b rows, fit_r2 rows, fit_rmse rows, rows.length⟩) ∧
    ∀ predict inf, fit_and_interpolate rows = .ok (predict, inf) →
      inf.n = rows.length ∧ ∀ p, predict p = inf.a * p + inf.b := by
  have hlen : ¬rows.length = 0 := by simpa [List.length_eq_zero] using h
  constructor
  · simp only [fit_and_interpolate, if_neg hlen]
  · intro predict inf hok
    simp only [fit_and_interpolate, if_neg hlen, Except.ok.injEq, Prod.mk.injEq] at hok
    obtain ⟨hpred, hinf⟩ := hok
    subst hinf
    exact ⟨rfl, fun p => by rw [← hpred]⟩

/-- C3 witness: the amended theorem applied at a concrete two-row CSV. -/
theorem claim_C3_witness :
    fit_and_interpolate [((0 : ℚ), (0 : ℚ)), (1, 1)] =
      .ok (fun p => fit_a [((0 : ℚ), (0 : ℚ)), (1, 1)] * p + fit_b [((0 : ℚ), (0 : ℚ)), (1, 1)],
           ⟨fit_a [((0 : ℚ), (0 : ℚ)), (1, 1)], fit_b [((0 : ℚ), (0 : ℚ)), (1, 1)],
            fit_r2 [((0 : ℚ), (0 : ℚ)), (1, 1)], fit_rmse [((0 : ℚ), (0 : ℚ)), (1, 1)], 2⟩) ∧
    ∀ predict inf,
      fit_and_interpolate [((0 : ℚ), (0 : ℚ)), (1, 1)] = .ok (predict, inf) →
        inf.n = 2 ∧ ∀ p, predict p = inf.a * p + inf.b :=
  claim_C3_fit_info_tuple [((0 : ℚ), (0 : ℚ)), (1, 1)] (by decide)

/-- C7: when opening the VISA resource raises, `OscilloscopeManager.__init__`
prints the diagnostic line and re-raises the same exception; no manager state
is produced and no alternative connection is attempted. -/
theorem claim_C7_connection_failure_reraised (e : String) (idnRes : Except String String) :
    osc_init (.error e) idnRes =
      (["Error al conectar con el osciloscopio: " ++ e], .error e) := rfl

/-- C9: every shape other than `"standard"` makes `generate_rabi` raise
`ValueError` (the `.error` branch) before any output file is produced. -/
theorem claim_C9_unsupported_shape (shape : String) (h : shape ≠ "standard")
    (T : ℚ) (P S : List ℚ) :
    generate_rabi T shape P S =
      .error ("Unsupported shape for STIRAP pulses: " ++ shape) := by
  simp [generate_rabi, h]

/-- C9 witness: the advertised-but-unimplemented `gaussian` shape is
rejected. -/
theorem claim_C9_witness :
    generate_rabi 1 "gaussian" [1] [1] =
      .error ("Unsupported shape for STIRAP pulses: " ++ "gaussian") :=
  claim_C9_unsupported_shape "gaussian" (by decide) 1 [1] [1]

/-- C10: before `configure_scope` has run (`read_speed` still `None`), both
`read_slow_return_data` and `acquire_slow_save_data` raise `ValueError` with
no instrument command issued (the command trace is empty). -/
theorem claim_C10_unconfigured_guard (st : OscState) (r : ScopeResponses)
    (channels : List ℕ) (h : st.read_speed = none) :
    read_slow_return_data st r channels =
      ([], .error "Scope read speed not set. Please configure the scope first.") ∧
    acquire_slow_save_data st r channels =
      ([], .error "Scope read speed not set. Please configure the scope first.") := by
  obtain ⟨rs⟩ := st
  cases h
  exact ⟨rfl, rfl⟩

/-- C10 witness: the guard theorem applied to a freshly constructed manager
state and a concrete oracle. -/
theorem claim_C10_witness :
    read_slow_return_data ⟨none⟩ ⟨"1", 0, 0, 0, 0, 0, fun _ => []⟩ [1, 2] =
      ([], .error "Scope read speed not set. Please configure the scope first.") ∧
    acquire_slow_save_data ⟨none⟩ ⟨"1", 0, 0, 0, 0, 0, fun _ => []⟩ [1, 2] =
      ([], .error "Scope read speed not set. Please configure the scope first.") :=
  claim_C10_unconfigured_guard ⟨none⟩ ⟨"1", 0, 0, 0, 0, 0, fun _ => []⟩ [1, 2] rfl

/-! ## Helper lemmas: envelope normalization -/

theorem max_abs_cons (x : ℚ) (l : List ℚ) : max_abs (x :: l) = max |x| (max_abs l) := rfl

theorem le_max_abs (xs : List ℚ) (x : ℚ) (h : x ∈ xs) : |x| ≤ max_abs xs := by
  induction xs with
  | nil => cases h
  | cons y l ih =>
    rcases List.mem_cons.mp h with h | h
    · rw [h, max_abs_cons]; exact le_max_left _ _
    · rw [max_abs_cons]; exact le_trans (ih h) (le_max_right _ _)

theorem max_abs_map_div (xs : List ℚ) (c : ℚ) (hc : 0 < c) :
    max_abs (xs.map (fun x => x / c)) = max_abs xs / c := by
  induction xs with
  | nil => simp [max_abs]
  | cons x l ih =>
    rw [List.map_cons, max_abs_cons, max_abs_cons, ih, abs_div, abs_of_pos hc,
      max_div_div_right (le_of_lt hc)]

theorem max_abs_all_zero (xs : List ℚ) (h : ∀ x ∈ xs, x = 0) : max_abs xs = 0 := by
  induction xs with
  | nil => rfl
  | cons x l ih =>
    rw [max_abs_cons, h x (List.mem_cons_self _ _), ih (fun y hy => h y (List.mem_cons_of_mem _ hy))]
    simp

theorem norm_envelope_max (xs : List ℚ) (x0 : ℚ) (hx0 : x0 ∈ xs) (hne : x0 ≠ 0) :
    max_abs (norm_envelope xs) = 1 := by
  have hpos : 0 < max_abs xs := lt_of_lt_of_le (abs_pos.mpr hne) (le_max_abs xs x0 hx0)
  have hdiv : norm_div xs = max_abs xs := if_pos (ne_of_gt hpos)
  unfold norm_envelope
  rw [hdiv, max_abs_map_div xs _ hpos, div_self (ne_of_gt hpos)]

theorem norm_envelope_all_zero (xs : List ℚ) (h : ∀ x ∈ xs, x = 0) :
    norm_envelope xs = xs := by
  unfold norm_envelope norm_div
  rw [max_abs_all_zero xs h]
  simp

/-- C8: `generate_rabi` in the `"standard"` branch writes the two separately
normalized envelopes; each written array has maximum absolute value exactly
`1` unless it is identically zero, in which case the guarded divisor is `1.0`
and the array is written unchanged. -/
theorem claim_C8_normalization (T : ℚ) (P S : List ℚ) (_hP : P ≠ []) (_hS : S ≠ []) :
    generate_rabi T "standard" P S =
      .ok [(filename_stem "standard" T ++ "_pump.csv", norm_envelope P),
           (filename_stem "standard" T ++ "_stokes.csv", norm_envelope S)] ∧
    ((∃ x ∈ P, x ≠ 0) → max_abs (norm_envelope P) = 1) ∧
    ((∀ x ∈ P, x = 0) → norm_envelope P = P) ∧
    ((∃ x ∈ S, x ≠ 0) → max_abs (norm_envelope S) = 1) ∧
    ((∀ x ∈ S, x = 0) → norm_envelope S = S) := by
  refine ⟨by simp [generate_rabi], ?_, norm_envelope_all_zero P, ?_, norm_envelope_all_zero S⟩
  · rintro ⟨x, hx, hne⟩
    exact norm_envelope_max P x hx hne
  · rintro ⟨x, hx, hne⟩
    exact norm_envelope_max S x hx hne

/-- C8 witness: concrete envelopes, one containing a zero sample. -/
theorem claim_C8_witness :
    generate_rabi 1 "standard" [0, 2] [3] =
      .ok [(filename_stem "standard" 1 ++ "_pump.csv", norm_envelope [0, 2]),
           (filename_stem "standard" 1 ++ "_stokes.csv", norm_envelope [3])] ∧
    max_abs (norm_envelope [0, 2]) = 1 ∧ max_abs (norm_envelope [3]) = 1 := by
  obtain ⟨h1, h2, _h3, h4, _h5⟩ :=
    claim_C8_normalization 1 [0, 2] [3] (by decide) (by decide)
  exact ⟨h1, h2 ⟨2, by simp, by norm_num⟩, h4 ⟨3, by simp, by norm_num⟩⟩

/-! ## Helper lemmas: least-squares fit -/

theorem map_sum_eq_fin_sum {α : Type} (l : List α) (f : α → ℚ) :
    (l.map f).sum = ∑ i : Fin l.length, f (l.get i) := by
  induction l with
  | nil => simp
  | cons a t ih =>
    rw [List.map_cons, List.sum_cons, ih]
    show _ = ∑ i : Fin (t.length + 1), f ((a :: t).get i)
    rw [Fin.sum_univ_succ]
    rfl

theorem sq_sum_identity (n : ℕ) (x : Fin n → ℚ) :
    ∑ i, ∑ j, (x i - x j) ^ 2 =
      2 * ((n : ℚ) * ∑ i, x i ^ 2 - (∑ i, x i) ^ 2) := by
  have e1 : ∀ i : Fin n, ∑ j, (x i - x j) ^ 2 =
      ((n : ℚ) * x i ^ 2 - 2 * x i * ∑ j, x j) + ∑ j, x j ^ 2 := by
    intro i
    have h : ∀ j : Fin n, (x i - x j) ^ 2 = (x i ^ 2 - 2 * x i * x j) + x j ^ 2 :=
      fun j => by ring
    rw [Finset.sum_congr rfl (fun j _ => h j), Finset.sum_add_distrib,
      Finset.sum_sub_distrib, Finset.sum_const, Finset.card_univ, Fintype.card_fin,
      nsmul_eq_mul, ← Finset.mul_sum]
  have e2 : ∑ i : Fin n, 2 * x i * (∑ j, x j) = (2 * ∑ i : Fin n, x i) * ∑ i : Fin n, x i := by
    rw [← Finset.sum_mul, ← Finset.mul_sum]
  rw [Finset.sum_congr rfl (fun i _ => e1 i), Finset.sum_add_distrib,
    Finset.sum_sub_distrib, Finset.sum_const, Finset.card_univ, Fintype.card_fin,
    nsmul_eq_mul, ← Finset.mul_sum, e2]
  ring

theorem fit_denom_pos (rows : List (ℚ × ℚ))
    (h : ∃ p ∈ rows, ∃ q ∈ rows, p.1 ≠ q.1) : 0 < fit_denom rows := by
  obtain ⟨p, hp, q, hq, hne⟩ := h
  obtain ⟨i0, hi0⟩ := List.mem_iff_get.mp hp
  obtain ⟨j0, hj0⟩ := List.mem_iff_get.mp hq
  have hx : (rows.get i0).1 ≠ (rows.get j0).1 := by rw [hi0, hj0]; exact hne
  have hpos : 0 < ∑ i : Fin rows.length, ∑ j : Fin rows.length,
      ((rows.get i).1 - (rows.get j).1) ^ 2 := by
    refine Finset.sum_pos' (fun i _ => Finset.sum_nonneg (fun j _ => sq_nonneg _)) ?_
    refine ⟨i0, Finset.mem_univ _, Finset.sum_pos' (fun j _ => sq_nonneg _) ?_⟩
    exact ⟨j0, Finset.mem_univ _, pow_two_pos_of_ne_zero (sub_ne_zero.mpr hx)⟩
  have hid := sq_sum_identity rows.length (fun i => (rows.get i).1)
  simp only [] at hid
  have hdenom : fit_denom rows =
      (rows.length : ℚ) * (∑ i : Fin rows.length, (rows.get i).1 ^ 2) -
        (∑ i : Fin rows.length, (rows.get i).1) ^ 2 := by
    unfold fit_denom sum_xx sum_x
    rw [map_sum_eq_fin_sum, map_sum_eq_fin_sum]
  rw [hdenom]
  linarith [hpos, hid]

theorem sum_y_linear (rows : List (ℚ × ℚ)) (a b : ℚ)
    (h : ∀ p ∈ rows, p.2 = a * p.1 + b) :
    sum_y rows = a * sum_x rows + (rows.length : ℚ) * b := by
  induction rows with
  | nil => simp [sum_y, sum_x]
  | cons p t ih =>
    have hp := h p (List.mem_cons_self _ _)
    have ht := ih (fun q hq => h q (List.mem_cons_of_mem _ hq))
    simp only [sum_y, sum_x, List.map_cons, List.sum_cons, List.length_cons] at ht ⊢
    rw [hp, ht]
    push_cast
    ring

theorem sum_xy_linear (rows : List (ℚ × ℚ)) (a b : ℚ)
    (h : ∀ p ∈ rows, p.2 = a * p.1 + b) :
    sum_xy rows = a * sum_xx rows + b * sum_x rows := by
  induction rows with
  | nil => simp [sum_xy, sum_xx, sum_x]
  | cons p t ih =>
    have hp := h p (List.mem_cons_self _ _)
    have ht := ih (fun q hq => h q (List.mem_cons_of_mem _ hq))
    simp only [sum_xy, sum_xx, sum_x, List.map_cons, List.sum_cons] at ht ⊢
    rw [hp, ht]
    ring

theorem fit_recovers (rows : List (ℚ × ℚ)) (a b : ℚ)
    (hlin : ∀ p ∈ rows, p.2 = a * p.1 + b)
    (hdist : ∃ p ∈ rows, ∃ q ∈ rows, p.1 ≠ q.1) :
    fit_a rows = a ∧ fit_b rows = b := by
  have hD := fit_denom_pos rows hdist
  have hDne : fit_denom rows ≠ 0 := ne_of_gt hD
  obtain ⟨p, hp, -⟩ := hdist
  have hlen : (rows.length : ℚ) ≠ 0 :=
    Nat.cast_ne_zero.mpr (List.length_pos.mpr (List.ne_nil_of_mem hp)).ne'
  have hy := sum_y_linear rows a b hlin
  have hxy := sum_xy_linear rows a b hlin
  have ha : fit_a rows = a := by
    unfold fit_a
    rw [hxy, hy]
    have key : (rows.length : ℚ) * (a * sum_xx rows + b * sum_x rows) -
        sum_x rows * (a * sum_x rows + (rows.length : ℚ) * b) = a * fit_denom rows := by
      unfold fit_denom
      ring
    rw [key, mul_div_assoc, div_self hDne, mul_one]
  refine ⟨ha, ?_⟩
  unfold fit_b
  rw [ha, hy]
  field_simp

/-- C2: for data lying exactly on the line `y = a * x + b` with at least two
distinct `x` values, `fit_and_interpolate` returns the pair whose `fit_info`
has slope exactly `a` and intercept exactly `b`, and whose `predict`
function is exactly `p ↦ a * p + b`. -/
theorem claim_C2_linear_fit_recovery (rows : List (ℚ × ℚ)) (a b : ℚ)
    (hlin : ∀ p ∈ rows, p.2 = a * p.1 + b)
    (hdist : ∃ p ∈ rows, ∃ q ∈ rows, p.1 ≠ q.1) :
    fit_and_interpolate rows =
      .ok (fun p => a * p + b, ⟨a, b, fit_r2 rows, fit_rmse rows, rows.length⟩) := by
  obtain ⟨ha, hb⟩ := fit_recovers rows a b hlin hdist
  obtain ⟨p, hp, -⟩ := hdist
  have hlen : ¬rows.length = 0 := by
    simpa [List.length_eq_zero] using List.ne_nil_of_mem hp
  simp only [fit_and_interpolate, if_neg hlen]
  rw [ha, hb]

/-- C2 witness: the line `y = 2 x + 3` sampled at `x = 0` and `x = 1`. -/
theorem claim_C2_witness :
    fit_and_interpolate [((0 : ℚ), (3 : ℚ)), (1, 5)] =
      .ok (fun p => 2 * p + 3,
           ⟨2, 3, fit_r2 [((0 : ℚ), (3 : ℚ)), (1, 5)],
            fit_rmse [((0 : ℚ), (3 : ℚ)), (1, 5)], 2⟩) :=
  claim_C2_linear_fit_recovery [((0 : ℚ), (3 : ℚ)), (1, 5)] 2 3
    (by intro p hp; fin_cases hp <;> norm_num)
    ⟨(0, 3), by simp, (1, 5), by simp, by norm_num⟩

/-! ## Helper lemmas: measurement sweep -/

theorem sweep_list_length (vs : List ℚ) (r : ℕ) :
    (sweep_list vs r).length = r * vs.length := by
  induction r with
  | zero => simp [sweep_list]
  | succ n ih =>
    show (vs ++ sweep_list vs n).length = (n + 1) * vs.length
    rw [List.length_append, ih]
    ring

theorem sweep_list_getElem (vs : List ℚ) (r i j : ℕ) (hi : i < r) (hj : j < vs.length) :
    (sweep_list vs r)[i * vs.length + j]? = vs[j]? := by
  induction r generalizing i with
  | zero => exact absurd hi (Nat.not_lt_zero i)
  | succ n ih =>
    cases i with
    | zero =>
      show (vs ++ sweep_list vs n)[0 * vs.length + j]? = vs[j]?
      rw [Nat.zero_mul, Nat.zero_add]
      exact List.getElem?_append_left hj
    | succ i' =>
      show (vs ++ sweep_list vs n)[(i' + 1) * vs.length + j]? = vs[j]?
      have harith : (i' + 1) * vs.length + j = vs.length + (i' * vs.length + j) := by ring
      rw [harith, List.getElem?_append_right (Nat.le_add_right _ _),
        Nat.add_sub_cancel_left]
      exact ih i' (Nat.lt_of_succ_lt_succ hi)

theorem measure_rows_getElem (vs : List ℚ) (r : ℕ) (pF pT ts : ℕ → ℚ) (k : ℕ) :
    (measure_rows vs r pF pT ts)[k]? =
      ((sweep_list vs r)[k]?).map (fun v => (v, pF k, pT k, ts k)) := by
  unfold measure_rows
  rw [List.getElem?_map, List.getElem?_enum]
  cases (sweep_list vs r)[k]? <;> rfl

/-- C5: `measure_loop`'s DataFrame has exactly the columns
`voltage, power_flip, power_target, timestamp`, contains `repeats * |voltages|`
data rows, and its `k`-th row (`k = i * |voltages| + j`, the `(i, j)`-th step
of the sweep in order) holds the voltage that was set and the `k`-th readings
of the two power meters together with the `k`-th timestamp. -/
theorem claim_C5_measure_loop_schema (vs : List ℚ) (r : ℕ) (pF pT ts : ℕ → ℚ) :
    (measure_loop vs r pF pT ts).1 =
      ["voltage", "power_flip", "power_target", "timestamp"] ∧
    (measure_loop vs r pF pT ts).2.length = r * vs.length ∧
    ∀ i j, i < r → j < vs.length → ∀ v, vs[j]? = some v →
      (measure_loop vs r pF pT ts).2[i * vs.length + j]? =
        some (v, pF (i * vs.length + j), pT (i * vs.length + j), ts (i * vs.length + j)) := by
  refine ⟨rfl, ?_, ?_⟩
  · show (measure_rows vs r pF pT ts).length = r * vs.length
    unfold measure_rows
    rw [List.length_map, List.enum_length, sweep_list_length]
  · intro i j hi hj v hv
    show (measure_rows vs r pF pT ts)[i * vs.length + j]? = _
    rw [measure_rows_getElem, sweep_list_getElem vs r i j hi hj, hv]
    rfl

/-- C5 witness: a two-voltage sweep repeated twice with constant meter and
clock oracles; the row checked is the first voltage of the second repeat. -/
theorem claim_C5_witness :
    (measure_loop [4, 7] 2 (fun _ => 9) (fun _ => 11) (fun _ => 13)).1 =
      ["voltage", "power_flip", "power_target", "timestamp"] ∧
    (measure_loop [4, 7] 2 (fun _ => 9) (fun _ => 11) (fun _ => 13)).2.length = 2 * 2 ∧
    (measure_loop [4, 7] 2 (fun _ => 9) (fun _ => 11) (fun _ => 13)).2[1 * 2 + 0]? =
      some (4, 9, 11, 13) := by
  obtain ⟨h1, h2, h3⟩ :=
    claim_C5_measure_loop_schema [4, 7] 2 (fun _ => 9) (fun _ => 11) (fun _ => 13)
  exact ⟨h1, h2, h3 1 0 (by decide) (by decide) 4 rfl⟩

/-! ## Helper lemmas: decimal printing and parsing -/

theorem digitChar_isDigit {k : ℕ} (h : k < 10) : (Nat.digitChar k).isDigit = true := by
  interval_cases k <;> decide

theorem char_digit_digitChar {k : ℕ} (h : k < 10) : char_digit (Nat.digitChar k) = k := by
  interval_cases k <;> decide

theorem isDigit_ne_dot {c : Char} (h : c.isDigit = true) : c ≠ '.' := by
  rintro rfl
  exact absurd h (by decide)

theorem isDigit_ne_minus {c : Char} (h : c.isDigit = true) : c ≠ '-' := by
  rintro rfl
  exact absurd h (by decide)

theorem isDigit_ne_comma {c : Char} (h : c.isDigit = true) : c ≠ ',' := by
  rintro rfl
  exact absurd h (by decide)

theorem digits_val_concat (xs : List Char) (c : Char) :
    digits_val (xs ++ [c]) = 10 * digits_val xs + char_digit c := by
  unfold digits_val
  rw [List.foldl_append]
  rfl

theorem digits_val_reverse_map (ds : List ℕ) (h : ∀ d ∈ ds, d < 10) :
    digits_val (ds.reverse.map Nat.digitChar) = Nat.ofDigits 10 ds := by
  induction ds with
  | nil => rfl
  | cons d tl ih =>
    rw [List.reverse_cons, List.map_append, List.map_cons, List.map_nil,
      digits_val_concat, ih (fun x hx => h x (List.mem_cons_of_mem _ hx)),
      char_digit_digitChar (h d (List.mem_cons_self _ _)), Nat.ofDigits_cons]
    ring

theorem pad_digits_lt (n L : ℕ) : ∀ d ∈ pad_digits n L, d < 10 := by
  intro d hd
  rcases List.mem_append.mp hd with h | h
  · exact Nat.digits_lt_base (by norm_num) h
  · rw [List.eq_of_mem_replicate h]
    norm_num

theorem pad_digits_length (n L : ℕ) : L ≤ (pad_digits n L).length := by
  unfold pad_digits
  rw [List.length_append, List.length_replicate]
  omega

theorem ofDigits_replicate_zero (k : ℕ) : Nat.ofDigits 10 (List.replicate k 0) = 0 := by
  induction k with
  | zero => rfl
  | succ n ih => simp [List.replicate_succ, Nat.ofDigits_cons, ih]

theorem ofDigits_pad_digits (n L : ℕ) : Nat.ofDigits 10 (pad_digits n L) = n := by
  unfold pad_digits
  rw [Nat.ofDigits_append, Nat.ofDigits_digits, ofDigits_replicate_zero, mul_zero, add_zero]

theorem takeWhile_append_all (p : Char → Bool) (xs ys : List Char)
    (h : ∀ c ∈ xs, p c = true) :
    (xs ++ ys).takeWhile p = xs ++ ys.takeWhile p := by
  induction xs with
  | nil => rfl
  | cons c t ih =>
    rw [List.cons_append, List.takeWhile_cons, h c (List.mem_cons_self _ _)]
    simp only [if_true]
    rw [ih (fun x hx => h x (List.mem_cons_of_mem _ hx)), List.cons_append]

theorem dropWhile_append_all (p : Char → Bool) (xs ys : List Char)
    (h : ∀ c ∈ xs, p c = true) :
    (xs ++ ys).dropWhile p = ys.dropWhile p := by
  induction xs with
  | nil => rfl
  | cons c t ih =>
    rw [List.cons_append, List.dropWhile_cons, h c (List.mem_cons_self _ _)]
    simp only [if_true]
    exact ih (fun x hx => h x (List.mem_cons_of_mem _ hx))

theorem int_chars_digits (n e : ℕ) :
    ∀ c ∈ ((pad_digits n (e + 1)).drop e).reverse.map Nat.digitChar, c.isDigit = true := by
  intro c hc
  obtain ⟨d, hd, rfl⟩ := List.mem_map.mp hc
  exact digitChar_isDigit
    (pad_digits_lt n (e + 1) d (List.drop_subset e _ (List.mem_reverse.mp hd)))

theorem frac_chars_digits (n e : ℕ) :
    ∀ c ∈ ((pad_digits n (e + 1)).take e).reverse.map Nat.digitChar, c.isDigit = true := by
  intro c hc
  obtain ⟨d, hd, rfl⟩ := List.mem_map.mp hc
  exact digitChar_isDigit
    (pad_digits_lt n (e + 1) d (List.take_subset e _ (List.mem_reverse.mp hd)))

theorem int_chars_ne_nil (n e : ℕ) :
    ((pad_digits n (e + 1)).drop e).reverse.map Nat.digitChar ≠ [] := by
  intro h
  have h2 := congrArg List.length h
  rw [List.length_map, List.length_reverse, List.length_drop, List.length_nil] at h2
  have := pad_digits_length n (e + 1)
  omega

theorem takeWhile_all (p : Char → Bool) (l : List Char) (h : ∀ c ∈ l, p c = true) :
    l.takeWhile p = l := by
  induction l with
  | nil => rfl
  | cons c t ih =>
    rw [List.takeWhile_cons, h c (List.mem_cons_self _ _)]
    simp only [if_true]
    rw [ih (fun x hx => h x (List.mem_cons_of_mem _ hx))]

theorem dropWhile_all (p : Char → Bool) (l : List Char) (h : ∀ c ∈ l, p c = true) :
    l.dropWhile p = [] := by
  induction l with
  | nil => rfl
  | cons c t ih =>
    rw [List.dropWhile_cons, h c (List.mem_cons_self _ _)]
    simp only [if_true]
    exact ih (fun x hx => h x (List.mem_cons_of_mem _ hx))

theorem parse_unsigned_print (n e : ℕ) :
    parse_unsigned (print_nat_dec n e) = some ((n : ℚ) / 10 ^ e) := by
  have hIdig := int_chars_digits n e
  have hFdig := frac_chars_digits n e
  have hInil := int_chars_ne_nil n e
  have hIdot : ∀ c ∈ ((pad_digits n (e + 1)).drop e).reverse.map Nat.digitChar,
      (fun c => decide (c ≠ '.')) c = true :=
    fun c hc => decide_eq_true (isDigit_ne_dot (hIdig c hc))
  have hIall : (((pad_digits n (e + 1)).drop e).reverse.map Nat.digitChar).all
      Char.isDigit = true := List.all_eq_true.mpr hIdig
  have hFall : (((pad_digits n (e + 1)).take e).reverse.map Nat.digitChar).all
      Char.isDigit = true := List.all_eq_true.mpr hFdig
  have hvalI : digits_val (((pad_digits n (e + 1)).drop e).reverse.map Nat.digitChar) =
      Nat.ofDigits 10 ((pad_digits n (e + 1)).drop e) :=
    digits_val_reverse_map _ (fun d hd => pad_digits_lt n (e + 1) d (List.drop_subset e _ hd))
  have hvalF : digits_val (((pad_digits n (e + 1)).take e).reverse.map Nat.digitChar) =
      Nat.ofDigits 10 ((pad_digits n (e + 1)).take e) :=
    digits_val_reverse_map _ (fun d hd => pad_digits_lt n (e + 1) d (List.take_subset e _ hd))
  have hsplit : Nat.ofDigits 10 ((pad_digits n (e + 1)).take e) +
      10 ^ e * Nat.ofDigits 10 ((pad_digits n (e + 1)).drop e) = n := by
    have h2 := @Nat.ofDigits_append 10 ((pad_digits n (e + 1)).take e)
      ((pad_digits n (e + 1)).drop e)
    rw [List.take_append_drop, ofDigits_pad_digits] at h2
    have hlt : ((pad_digits n (e + 1)).take e).length = e := by
      rw [List.length_take]
      have := pad_digits_length n (e + 1)
      omega
    rw [hlt] at h2
    omega
  by_cases he : e = 0
  · subst he
    simp only [print_nat_dec, if_true, List.drop_zero] at hIdot hInil hIall hvalI ⊢
    simp only [parse_unsigned]
    rw [takeWhile_all _ _ hIdot, dropWhile_all _ _ hIdot]
    rw [if_pos ⟨hIall, by decide,
      fun hh => hInil (List.isEmpty_iff.mp hh.1)⟩]
    rw [hvalI, ofDigits_pad_digits, show digits_val (List.drop 1 []) = 0 from rfl]
    norm_num
  · simp only [print_nat_dec, if_neg he]
    simp only [parse_unsigned]
    rw [takeWhile_append_all _ _ _ hIdot, dropWhile_append_all _ _ _ hIdot]
    rw [show (('.' :: ((pad_digits n (e + 1)).take e).reverse.map Nat.digitChar).takeWhile
        (fun c => decide (c ≠ '.'))) = [] from by simp [List.takeWhile_cons]]
    rw [show (('.' :: ((pad_digits n (e + 1)).take e).reverse.map Nat.digitChar).dropWhile
        (fun c => decide (c ≠ '.'))) = '.' :: ((pad_digits n (e + 1)).take e).reverse.map
        Nat.digitChar from by simp [List.dropWhile_cons]]
    rw [List.append_nil,
      show ('.' :: ((pad_digits n (e + 1)).take e).reverse.map Nat.digitChar).drop 1 =
        ((pad_digits n (e + 1)).take e).reverse.map Nat.digitChar from rfl]
    rw [if_pos ⟨hIall, hFall, fun hh => hInil (List.isEmpty_iff.mp hh.1)⟩]
    have hlenF : (((pad_digits n (e + 1)).take e).reverse.map Nat.digitChar).length = e := by
      rw [List.length_map, List.length_reverse, List.length_take]
      have := pad_digits_length n (e + 1)
      omega
    rw [hvalI, hvalF, hlenF]
    have hn : (n : ℚ) = (Nat.ofDigits 10 ((pad_digits n (e + 1)).take e) : ℚ) +
        10 ^ e * (Nat.ofDigits 10 ((pad_digits n (e + 1)).drop e) : ℚ) := by
      exact_mod_cast congrArg (fun k : ℕ => (k : ℚ)) hsplit.symm
    rw [hn]
    have hpow : (10 : ℚ) ^ e ≠ 0 := by positivity
    field_simp
    push_cast
    ring

theorem print_nat_dec_ne_nil (n e : ℕ) : print_nat_dec n e ≠ [] := by
  unfold print_nat_dec
  by_cases he : e = 0
  · simp only [if_pos he]
    exact int_chars_ne_nil n e
  · simp only [if_neg he]
    exact List.append_ne_nil_of_right_ne_nil _ (List.cons_ne_nil _ _)

theorem print_nat_dec_head_digit (n e : ℕ) :
    ∀ c, (print_nat_dec n e).head? = some c → c.isDigit = true := by
  intro c hc
  unfold print_nat_dec at hc
  by_cases he : e = 0
  · rw [if_pos he] at hc
    exact int_chars_digits n e c (List.mem_of_mem_head? hc)
  · rw [if_neg he, List.head?_append_of_ne_nil _ (int_chars_ne_nil n e)] at hc
    exact int_chars_digits n e c (List.mem_of_mem_head? hc)

theorem parse_cell_print (d : Dec) : parse_cell (Dec.print d) = some d.val := by
  unfold Dec.print
  by_cases hm : d.m < 0
  · rw [if_pos hm, List.singleton_append]
    have hpc : parse_cell ('-' :: print_nat_dec d.m.natAbs d.e) =
        (parse_unsigned (print_nat_dec d.m.natAbs d.e)).map (fun q => -q) := by
      simp [parse_cell]
    rw [hpc, parse_unsigned_print]
    have habs : ((d.m.natAbs : ℚ)) = -(d.m : ℚ) := by
      rw [Int.cast_natAbs, abs_of_neg hm]
      push_cast
      ring
    simp only [Option.map_some', Dec.val]
    rw [habs, neg_div, neg_neg]
  · rw [if_neg hm, List.nil_append]
    obtain ⟨c, rest, hX⟩ : ∃ c rest, print_nat_dec d.m.natAbs d.e = c :: rest := by
      cases hX : print_nat_dec d.m.natAbs d.e with
      | nil => exact absurd hX (print_nat_dec_ne_nil _ _)
      | cons c rest => exact ⟨c, rest, rfl⟩
    have hcd : c.isDigit = true := print_nat_dec_head_digit _ _ c (by rw [hX]; rfl)
    have hpc : parse_cell (c :: rest) = parse_unsigned (c :: rest) := by
      simp [parse_cell, isDigit_ne_minus hcd]
    rw [hX, hpc, ← hX, parse_unsigned_print]
    have habs : ((d.m.natAbs : ℚ)) = (d.m : ℚ) := by
      rw [Int.cast_natAbs, abs_of_nonneg (not_lt.mp hm)]
    simp only [Dec.val]
    rw [habs]

theorem mem_print_nat_dec {c : Char} {n e : ℕ} (h : c ∈ print_nat_dec n e) :
    c.isDigit = true ∨ c = '.' := by
  simp only [print_nat_dec] at h
  by_cases he : e = 0
  · rw [if_pos he] at h
    exact Or.inl (int_chars_digits n e c h)
  · rw [if_neg he] at h
    rcases List.mem_append.mp h with h | h
    · exact Or.inl (int_chars_digits n e c h)
    · rcases List.mem_cons.mp h with h | h
      · exact Or.inr h
      · exact Or.inl (frac_chars_digits n e c h)

theorem comma_not_mem_print (d : Dec) : ',' ∉ Dec.print d := by
  intro h
  simp only [Dec.print] at h
  rcases List.mem_append.mp h with h | h
  · by_cases hm : d.m < 0
    · rw [if_pos hm, List.mem_singleton] at h
      exact absurd h (by decide)
    · rw [if_neg hm] at h
      exact absurd h (List.not_mem_nil _)
  · rcases mem_print_nat_dec h with h | h
    · exact isDigit_ne_comma h rfl
    · exact absurd h (by decide)

theorem split_cells_cons (sep c : Char) (cs : List Char) :
    split_cells sep (c :: cs) =
      if c = sep then ([], (split_cells sep cs).1 :: (split_cells sep cs).2)
      else (c :: (split_cells sep cs).1, (split_cells sep cs).2) := rfl

theorem split_cells_append (sep : Char) (xs ys : List Char) (h : sep ∉ xs) :
    split_cells sep (xs ++ ys) =
      (xs ++ (split_cells sep ys).1, (split_cells sep ys).2) := by
  induction xs with
  | nil => rfl
  | cons c t ih =>
    have hc : ¬c = sep := fun hh => h (hh ▸ List.mem_cons_self c t)
    have iht := ih (fun hm => h (List.mem_cons_of_mem _ hm))
    rw [List.cons_append, split_cells_cons, iht, if_neg hc]
    simp

theorem split_on_join (sep : Char) (cells : List (List Char)) (hne : cells ≠ [])
    (h : ∀ cell ∈ cells, sep ∉ cell) :
    split_on sep (join_cells sep cells) = cells := by
  induction cells with
  | nil => exact absurd rfl hne
  | cons c cs ih =>
    cases cs with
    | nil =>
      unfold split_on
      have h1 := split_cells_append sep c [] (h c (List.mem_cons_self _ _))
      rw [List.append_nil] at h1
      rw [show join_cells sep [c] = c from rfl, h1]
      simp [split_cells]
    | cons c2 cs2 =>
      unfold split_on
      rw [show join_cells sep (c :: c2 :: cs2) = c ++ sep :: join_cells sep (c2 :: cs2) from rfl]
      rw [split_cells_append sep c _ (h c (List.mem_cons_self _ _))]
      have hstep : split_cells sep (sep :: join_cells sep (c2 :: cs2)) =
          ([], (split_cells sep (join_cells sep (c2 :: cs2))).1 ::
            (split_cells sep (join_cells sep (c2 :: cs2))).2) := by
        simp [split_cells]
      rw [hstep]
      have ihh := ih (List.cons_ne_nil _ _) (fun x hx => h x (List.mem_cons_of_mem _ hx))
      unfold split_on at ihh
      simp only [List.append_nil]
      rw [ihh]

theorem parse_row_write_row (row : Dec × Dec × Dec × Dec) :
    parse_row (write_row row) =
      some (row.1.val, row.2.1.val, row.2.2.1.val, row.2.2.2.val) := by
  unfold parse_row write_row
  rw [split_on_join ',' [row.1.print, row.2.1.print, row.2.2.1.print, row.2.2.2.print]
    (List.cons_ne_nil _ _) ?hfree]
  case hfree =>
    intro cell hc
    simp only [List.mem_cons, List.not_mem_nil, or_false] at hc
    rcases hc with rfl | rfl | rfl | rfl <;> exact comma_not_mem_print _
  simp [parse_cell_print]

theorem parse_rows_map (rows : List (Dec × Dec × Dec × Dec)) :
    parse_rows (rows.map write_row) =
      some (rows.map (fun r => (r.1.val, r.2.1.val, r.2.2.1.val, r.2.2.2.val))) := by
  induction rows with
  | nil => rfl
  | cons r t ih => simp [parse_rows, parse_row_write_row, ih]

/-- C4: writing measurement rows with `measure_loop`'s
`df.to_csv(output_csv, index=False)` (header `voltage, power_flip,
power_target, timestamp`) and reading the file back with
`fit_and_interpolate`'s `pd.read_csv` recovers exactly the same numeric
values in every column, in the same row order. -/
theorem claim_C4_csv_round_trip (rows : List (Dec × Dec × Dec × Dec)) :
    read_csv (to_csv rows) =
      some (rows.map (fun r => (r.1.val, r.2.1.val, r.2.2.1.val, r.2.2.2.val))) := by
  show parse_rows (List.map write_row rows) = _
  exact parse_rows_map rows

/-! ## Helper lemmas: waveform export -/

theorem format10_ne_nil (q : ℚ) : format10 q ≠ [] := by
  unfold format10 Dec.print
  intro h
  exact print_nat_dec_ne_nil _ _ (List.append_eq_nil.mp h).2

theorem flatten_map_concat (sep : Char) (cells : List (List Char)) (hne : cells ≠ []) :
    (cells.map (fun c => c ++ [sep])).flatten = join_cells sep cells ++ [sep] := by
  induction cells with
  | nil => exact absurd rfl hne
  | cons c cs ih =>
    cases cs with
    | nil => simp [join_cells]
    | cons c2 cs2 =>
      rw [List.map_cons, List.flatten_cons, ih (List.cons_ne_nil _ _)]
      rw [show join_cells sep (c :: c2 :: cs2) = c ++ sep :: join_cells sep (c2 :: cs2) from rfl]
      simp

/-- C6 is false as stated at the empty array: `np.savetxt` writes an empty
file, the backwards seek then raises `ValueError` (swallowed by the bare
`except`), and the file is left empty — without the terminating newline the
claim promises for every finite numeric array. -/
theorem claim_C6_counterexample :
    export_to_csv [] ≠
      join_cells ',' ((List.map (fun el => if |el| < 1 / 10 ^ 9 then 0 else el)
        ([] : List ℚ)).map format10) ++ ['\n'] := by
  intro hh
  simp [export_to_csv, rescale_small] at hh

/-- C6 (amended): for every nonempty finite numeric array, the file written
by `export_to_csv` is the array's values in order — each element with
absolute value below `1e-9` replaced by `0`, the rest unchanged — formatted
with 10 decimal places, joined by commas with no trailing comma, and
terminated by a newline. -/
theorem claim_C6_amended_export_format (arr : List ℚ) (h : arr ≠ []) :
    export_to_csv arr =
      join_cells ','
        ((arr.map (fun el => if |el| < 1 / 10 ^ 9 then 0 else el)).map format10) ++
      ['\n'] := by
  have hcells : (rescale_small arr).map format10 ≠ [] := by
    intro hh
    rw [List.map_eq_nil_iff] at hh
    exact h (by simpa [rescale_small, List.map_eq_nil_iff] using hh)
  have hmm : (rescale_small arr).map (fun q => format10 q ++ [',']) =
      ((rescale_small arr).map format10).map (fun c => c ++ [',']) :=
    (List.map_map (fun c => c ++ [',']) format10 (rescale_small arr)).symm
  simp only [export_to_csv]
  rw [hmm, flatten_map_concat ',' _ hcells, List.getLast?_concat]
  dsimp only
  rw [if_pos rfl, List.dropLast_concat]
  rfl

/-- C6 witness: the amended export theorem applied at the singleton array. -/
theorem claim_C6_witness :
    export_to_csv [1] =
      join_cells ','
        (([(1 : ℚ)].map (fun el => if |el| < 1 / 10 ^ 9 then 0 else el)).map format10) ++
      ['\n'] :=
  claim_C6_amended_export_format [1] (by decide)

end ColdControl
